import Mathlib

/-!
Verification of the news relevance retrieval and filtering pipeline of
`src/backend/IntelligenceHub.py`.

Strings are modelled as `List Char`.  Python `str.lower`/`str.upper` are
modelled by mapping `Char.toLower`/`Char.toUpper` (the texts handled by the
program are ASCII).  The regular expressions used by the code are the two
word-boundary literal patterns `r"\b" + re.escape(sym) + r"\b"`; they are
embedded directly as literal matching with explicit word-boundary checks.
-/

/-- A regex word character (`\w`): letters, digits, underscore. -/
def wordChar (c : Char) : Bool := c.isAlphanum || c = '_'

/-- Wordness of an optional character; out-of-string counts as non-word. -/
def isWordOpt : Option Char → Bool
  | none => false
  | some c => wordChar c

/-- `\b` holds at position `i` of `t`: the characters on the two sides of the
position differ in wordness (out of string = non-word). -/
def boundaryAt (t : List Char) (i : Nat) : Bool :=
  (isWordOpt (if i = 0 then none else t[i - 1]?)) != (isWordOpt t[i]?)

/-- The pattern `\b p \b` (with `p` a `re.escape`d literal) matches `t` at
position `i`. -/
def matchAt (t p : List Char) (i : Nat) : Bool :=
  p.isPrefixOf (t.drop i) && boundaryAt t i && boundaryAt t (i + p.length)

/-- `re.search` of the word-boundary literal pattern: a match at some
position of the text. -/
def existsMatch (t p : List Char) : Bool :=
  (List.range (t.length + 1)).any fun i => matchAt t p i

/-- Scanning worker for `re.findall`: non-overlapping matches, left to
right; after a match the scan resumes past it (one position forward for a
zero-width match).  `fuel` bounds the number of scan steps; the scan starts
with fuel `t.length + 1`, which is enough since every step advances. -/
def findallCountAux (t p : List Char) : Nat → Nat → Nat
  | 0, _ => 0
  | fuel + 1, i =>
    if t.length < i then 0
    else if matchAt t p i then 1 + findallCountAux t p fuel (i + max p.length 1)
    else findallCountAux t p fuel (i + 1)

/-- `len(re.findall(pattern, t))` for the word-boundary literal pattern. -/
def findallCount (t p : List Char) : Nat := findallCountAux t p (t.length + 1) 0

/-- Python substring containment `p in t`. -/
def containsSub (t p : List Char) : Bool :=
  (List.range (t.length + 1)).any fun i => p.isPrefixOf (t.drop i)

/-- The `crypto_keywords` list of `get_crypto_news`. -/
def crypto_keywords : List (List Char) :=
  ["cryptocurrency".data, "crypto".data, "blockchain".data, "token".data, "coin".data,
   "bitcoin".data, "ethereum".data, "trading".data, "exchange".data, "wallet".data,
   "price".data, "market".data, "defi".data, "nft".data, "mining".data, "staking".data,
   "bull".data, "bear".data, "rally".data, "dump".data, "pump".data, "hodl".data,
   "binance".data, "coinbase".data, "kraken".data, "uniswap".data, "dex".data,
   "altcoin".data, "memecoin".data, "web3".data, "satoshi".data, "ledger".data,
   "buy".data, "sell".data, "trade".data, "invest".data, "capitalization".data]

/-- The `false_positive_indicators` list of `get_crypto_news`. -/
def false_positive_indicators : List (List Char) :=
  ["country".data, "nation".data, "government".data, "politics".data, "election".data,
   "tourism".data, "geography".data, "city".data, "capital".data, "president".data,
   "flower".data, "plant".data, "garden".data, "nature".data, "species".data,
   "movie".data, "film".data, "actor".data, "actress".data, "director".data,
   "restaurant".data, "food".data, "recipe".data, "cooking".data, "chef".data]

/-- `is_crypto_relevant(text, symbol)` from `get_crypto_news`.  The nested
Python function closes over `clean_symbol = symbol.replace('-', ' ')` of the
enclosing call, and is only ever invoked with that same `symbol`, so the
clean form is recomputed here from the `symbol` argument. -/
def is_crypto_relevant (text symbol : List Char) : Bool :=
  let text_lower := text.map Char.toLower
  let symbol_lower := symbol.map Char.toLower
  let clean_symbol_lower := (symbol.map fun c => if c = '-' then ' ' else c).map Char.toLower
  if !(existsMatch text_lower symbol_lower || existsMatch text_lower clean_symbol_lower) then
    false
  else
    let symbol_count := findallCount text_lower symbol_lower +
      findallCount text_lower clean_symbol_lower
    let has_crypto_context := crypto_keywords.any fun k => containsSub text_lower k
    let has_false_positive := false_positive_indicators.any fun k => containsSub text_lower k
    if 2 ≤ symbol_count then true
    else if symbol_count = 1 then
      if has_crypto_context && !has_false_positive then true
      else if has_crypto_context && has_false_positive then
        decide (2 ≤ crypto_keywords.countP fun k => containsSub text_lower k)
      else if has_false_positive && !has_crypto_context then false
      else false
    else false

/-- One raw feed item, holding the fields `get_crypto_news` reads with
`entry.get(...)`; a `none` field models a missing key. -/
structure Entry where
  link : Option (List Char)
  title : Option (List Char)
  summary : Option (List Char)
  published : Option (List Char)
deriving DecidableEq

/-- One NewsAPI article, holding the fields read with `art.get(...)`;
`sourceName` is `art.get("source", {}).get("name", ...)`. -/
structure NewsApiArticle where
  url : Option (List Char)
  title : Option (List Char)
  sourceName : Option (List Char)
  publishedAt : Option (List Char)
  description : Option (List Char)
deriving DecidableEq

/-- A normalized accepted story, as appended to `stories`. -/
structure Story where
  title : List Char
  source : List Char
  url : List Char
  published_at : List Char
  description : List Char
deriving DecidableEq

/-- The mutable accumulation state of one `get_crypto_news` call:
the `stories` list and the `seen_urls` set. -/
structure AccState where
  stories : List Story
  seenUrls : List (List Char)
deriving DecidableEq

/-- Tag for one network fetch performed by the pipeline: which of the three
Google News query variants, NewsAPI, Bing News, or which of the four fixed
crypto feeds was queried. -/
inductive Src where
  | google : Nat → Src
  | newsapi : Src
  | bing : Src
  | crypto : Nat → Src
deriving DecidableEq

/-- The external world of one `get_crypto_news` call: the response of every
source it may query.  `none` models a transport failure, a non-2xx status, a
parse exception, or a feed without an entries attribute — all of which the
code treats as contributing zero entries. -/
structure NewsEnv where
  googleFeed1 : Option (List Entry)
  googleFeed2 : Option (List Entry)
  googleFeed3 : Option (List Entry)
  hasNewsApiKey : Bool
  newsApiArticles : Option (List NewsApiArticle)
  bingFeed : Option (List Entry)
  cryptoFeed1 : Option (List Entry)
  cryptoFeed2 : Option (List Entry)
  cryptoFeed3 : Option (List Entry)
  cryptoFeed4 : Option (List Entry)
deriving DecidableEq

/-- The JSON payload returned by `get_crypto_news` (its datetime timestamp
field is omitted from the model); `message` is `some _` exactly in the
no-stories payload. -/
structure NewsResult where
  symbol : List Char
  news : List Story
  count : Nat
  message : Option (List Char)
deriving DecidableEq

/-- Helper for the tag-stripping regex `<[^<]+?>`: given the text after a
`<`, if the lazy pattern matches, return the remainder after the closing
`>`; `none` if another `<` interrupts or the text ends first. -/
def tagEnd : List Char → Option (List Char)
  | [] => none
  | c :: cs =>
    if c = '<' then none
    else
      match cs with
      | '>' :: rest => some rest
      | _ => tagEnd cs

/-- Fueled scanner for `re.sub("<[^<]+?>", "", s)`; each step consumes at
least one character, so fuel `s.length` always suffices. -/
def stripTagsAux : Nat → List Char → List Char
  | 0, l => l
  | _ + 1, [] => []
  | fuel + 1, c :: cs =>
    if c = '<' then
      match tagEnd cs with
      | some rest => stripTagsAux fuel rest
      | none => c :: stripTagsAux fuel cs
    else c :: stripTagsAux fuel cs

/-- `re.sub("<[^<]+?>", "", s)`: remove every `<...>` run containing no
inner `<` and no inner `>`. -/
def stripTags (s : List Char) : List Char := stripTagsAux s.length s

/-- The truncation step `if len(desc) > 200: desc = desc[:200] + "..."`. -/
def truncDesc (d : List Char) : List Char :=
  if 200 < d.length then d.take 200 ++ ("...".data) else d

/-- Python slicing `l[:k]`, including the negative-bound case. -/
def pyTake {α : Type} (l : List α) (k : Int) : List α :=
  if 0 ≤ k then l.take k.toNat else l.take (l.length - (-k).toNat)

/-- Rightmost position at or below `n` where `p` starts in `t`. -/
def lastOccAux (t p : List Char) : Nat → Option Nat
  | 0 => if p.isPrefixOf (t.drop 0) then some 0 else none
  | i + 1 => if p.isPrefixOf (t.drop (i + 1)) then some (i + 1) else lastOccAux t p i

/-- Rightmost start position of `p` inside `t`, scanning from the right —
the split point used by `title.rsplit(sep, 1)`. -/
def lastOccurrence (t p : List Char) : Option Nat := lastOccAux t p t.length

/-- The Google News title handling: `if " - " in title: title, source =
title.rsplit(" - ", 1)`, with source defaulting to `"Google News"`. -/
def googleSplit (t0 : List Char) : List Char × List Char :=
  match lastOccurrence t0 (" - ".data) with
  | some i => (t0.take i, t0.drop (i + 3))
  | none => (t0, "Google News".data)

/-- Processing of one Google News feed entry (loop body at lines 218-251):
`none` when the entry is skipped, `some story` when accepted. -/
def googleEntryStep (symbol : List Char) (seen : List (List Char)) (e : Entry) : Option Story :=
  match e.link with
  | none => none
  | some url =>
    if url = [] ∨ url ∈ seen then none
    else
      let ts := googleSplit (e.title.getD ("No title".data))
      let desc := stripTags (e.summary.getD ts.1)
      if is_crypto_relevant (ts.1 ++ (' ' :: desc)) symbol then
        some ⟨ts.1, ts.2, url, e.published.getD [], truncDesc desc⟩
      else none

/-- Processing of one NewsAPI article (loop body at lines 271-295). -/
def newsapiStep (symbol : List Char) (seen : List (List Char)) (a : NewsApiArticle) : Option Story :=
  match a.url with
  | none => none
  | some url =>
    if url = [] ∨ url ∈ seen then none
    else
      let desc0 := a.description.getD []
      if is_crypto_relevant ((a.title.getD []) ++ (' ' :: desc0)) symbol then
        let desc := if desc0 ≠ [] ∧ 200 < desc0.length then desc0.take 200 ++ ("...".data)
          else desc0
        some ⟨a.title.getD ("No title".data), a.sourceName.getD ("NewsAPI".data), url,
          a.publishedAt.getD [], if desc = [] then [] else desc⟩
      else none

/-- Processing of one Bing News feed entry (loop body at lines 306-331). -/
def bingStep (symbol : List Char) (seen : List (List Char)) (e : Entry) : Option Story :=
  match e.link with
  | none => none
  | some url =>
    if url = [] ∨ url ∈ seen then none
    else
      let title := e.title.getD ("No title".data)
      let desc := stripTags (e.summary.getD [])
      if is_crypto_relevant (title ++ (' ' :: desc)) symbol then
        some ⟨title, "Bing News".data, url, e.published.getD [], truncDesc desc⟩
      else none

/-- Processing of one fixed-crypto-feed entry (loop body at lines 354-378);
here the relevance text uses the raw, unstripped summary. -/
def cryptoStep (symbol : List Char) (seen : List (List Char)) (e : Entry) : Option Story :=
  match e.link with
  | none => none
  | some url =>
    if url = [] ∨ url ∈ seen then none
    else
      let title := e.title.getD []
      let summary := e.summary.getD []
      if is_crypto_relevant (title ++ (' ' :: summary)) symbol then
        some ⟨if title = [] then ("No title".data) else title, "Crypto Feed".data, url,
          e.published.getD [], truncDesc (stripTags summary)⟩
      else none

/-- The per-entry accumulation loop shared by all sources: stop as soon as
`len(stories) >= num_stories`, otherwise run the entry step; on acceptance
append the story and record its url in `seen_urls`. -/
def foldEntries {α : Type} (num : Int) (step : List (List Char) → α → Option Story) :
    AccState → List α → AccState
  | st, [] => st
  | st, e :: rest =>
    if num ≤ (st.stories.length : Int) then st
    else
      match step st.seenUrls e with
      | none => foldEntries num step st rest
      | some s => foldEntries num step ⟨st.stories ++ [s], s.url :: st.seenUrls⟩ rest

/-- The empty accumulation state: `stories = []`, `seen_urls = set()`. -/
def initialState : AccState := ⟨[], []⟩

/-- The Google News phase (lines 207-260): one response per search variant,
in order; break before fetching once the count is reached; on a parse
failure continue with the next variant; after a successful parse break out
of the variant loop as soon as `stories` is non-empty.  Also returns the
list of fetches performed. -/
def googleLoop (num : Int) (symbol : List Char) :
    AccState → List (Option (List Entry)) → Nat → AccState × List Src
  | st, [], _ => (st, [])
  | st, resp :: rest, qi =>
    if num ≤ (st.stories.length : Int) then (st, [])
    else
      match resp with
      | none =>
        ((googleLoop num symbol st rest (qi + 1)).1,
         Src.google qi :: (googleLoop num symbol st rest (qi + 1)).2)
      | some entries =>
        if (foldEntries num (googleEntryStep symbol) st (pyTake entries (num * 4))).stories = []
        then
          ((googleLoop num symbol
              (foldEntries num (googleEntryStep symbol) st (pyTake entries (num * 4)))
              rest (qi + 1)).1,
           Src.google qi ::
             (googleLoop num symbol
               (foldEntries num (googleEntryStep symbol) st (pyTake entries (num * 4)))
               rest (qi + 1)).2)
        else
          (foldEntries num (googleEntryStep symbol) st (pyTake entries (num * 4)),
           [Src.google qi])

/-- The NewsAPI phase (lines 262-298): fetched only when the count is not
yet reached and an API key is configured. -/
def newsapiPhase (num : Int) (symbol : List Char) (hasKey : Bool)
    (resp : Option (List NewsApiArticle)) (st : AccState) : AccState × List Src :=
  if (st.stories.length : Int) < num ∧ hasKey = true then
    match resp with
    | none => (st, [Src.newsapi])
    | some arts => (foldEntries num (newsapiStep symbol) st arts, [Src.newsapi])
  else (st, [])

/-- The Bing News phase (lines 300-334). -/
def bingPhase (num : Int) (symbol : List Char) (resp : Option (List Entry))
    (st : AccState) : AccState × List Src :=
  if (st.stories.length : Int) < num then
    match resp with
    | none => (st, [Src.bing])
    | some entries => (foldEntries num (bingStep symbol) st (pyTake entries (num * 4)), [Src.bing])
  else (st, [])

/-- The loop over the four fixed crypto feeds (lines 344-381). -/
def cryptoLoop (num : Int) (symbol : List Char) :
    AccState → List (Option (List Entry)) → Nat → AccState × List Src
  | st, [], _ => (st, [])
  | st, resp :: rest, fi =>
    if num ≤ (st.stories.length : Int) then (st, [])
    else
      match resp with
      | none =>
        ((cryptoLoop num symbol st rest (fi + 1)).1,
         Src.crypto fi :: (cryptoLoop num symbol st rest (fi + 1)).2)
      | some entries =>
        ((cryptoLoop num symbol
            (foldEntries num (cryptoStep symbol) st (pyTake entries (num * 5)))
            rest (fi + 1)).1,
         Src.crypto fi ::
           (cryptoLoop num symbol
             (foldEntries num (cryptoStep symbol) st (pyTake entries (num * 5)))
             rest (fi + 1)).2)

/-- The crypto-feed phase (lines 336-381): guarded by the count check. -/
def cryptoPhase (num : Int) (symbol : List Char) (feeds : List (Option (List Entry)))
    (st : AccState) : AccState × List Src :=
  if (st.stories.length : Int) < num then cryptoLoop num symbol st feeds 0 else (st, [])

/-- The whole accumulation pipeline of `get_crypto_news`, with the list of
fetches it performs. -/
def newsPipeline (symbol : List Char) (num : Int) (env : NewsEnv) : AccState × List Src :=
  let g := googleLoop num symbol initialState
    [env.googleFeed1, env.googleFeed2, env.googleFeed3] 0
  let n := newsapiPhase num symbol env.hasNewsApiKey env.newsApiArticles g.1
  let b := bingPhase num symbol env.bingFeed n.1
  let c := cryptoPhase num symbol
    [env.cryptoFeed1, env.cryptoFeed2, env.cryptoFeed3, env.cryptoFeed4] b.1
  (c.1, g.2 ++ (n.2 ++ (b.2 ++ c.2)))

/-- The message of the empty payload (line 388). -/
def noNewsMessage (symbol : List Char) : List Char :=
  ("No recent crypto news found for ".data) ++ symbol ++
    (". It might have limited media coverage or be a very new project.".data)

/-- `get_crypto_news(symbol, num_stories)` (lines 136-399) run against an
explicit environment of source responses; also returns the fetch log. -/
def get_crypto_news (symbol : List Char) (num_stories : Int) (env : NewsEnv) :
    NewsResult × List Src :=
  let p := newsPipeline symbol num_stories env
  if p.1.stories = [] then
    (⟨symbol.map Char.toUpper, [], 0, some (noNewsMessage symbol)⟩, p.2)
  else
    (⟨symbol.map Char.toUpper, p.1.stories, p.1.stories.length, none⟩, p.2)

/-- Accumulator invariant: accepted urls are pairwise distinct, and every
accepted url has been recorded in `seen_urls`. -/
def AccInv (st : AccState) : Prop :=
  (st.stories.map fun s => s.url).Nodup ∧ ∀ s ∈ st.stories, s.url ∈ st.seenUrls

/-- A Google News entry accepted in the C6 witness run. -/
def entryC6 : Entry :=
  ⟨some ("u1".data), some ("btc gains".data), some ("btc rally today".data), some ("t1".data)⟩

/-- Witness environment for C6: the first Google variant already yields the
one requested story, while NewsAPI, Bing and a crypto feed all have content
that must not be fetched. -/
def envC6 : NewsEnv :=
  { googleFeed1 := some [entryC6]
    googleFeed2 := some []
    googleFeed3 := some []
    hasNewsApiKey := true
    newsApiArticles := some [⟨some ("u2".data), some ("btc x btc".data), some ("NAPI".data),
      some ("t2".data), some ("btc btc d".data)⟩]
    bingFeed := some [⟨some ("u3".data), some ("btc y btc".data), some ("s".data),
      some ("t3".data)⟩]
    cryptoFeed1 := some [⟨some ("u4".data), some ("btc z btc".data), some ("w".data),
      some ("t4".data)⟩]
    cryptoFeed2 := none
    cryptoFeed3 := none
    cryptoFeed4 := none }

/-- Witness environment for C7: every source fails or is absent. -/
def envEmpty : NewsEnv :=
  ⟨none, none, none, false, none, none, none, none, none, none⟩

/-- Witness environment for C10: sources have plenty of content, none of
which may be fetched when the requested count is non-positive. -/
def envC10 : NewsEnv :=
  { googleFeed1 := some [⟨some ("v1".data), some ("btc a btc".data), some ("x1".data),
      some ("p1".data)⟩]
    googleFeed2 := none
    googleFeed3 := none
    hasNewsApiKey := true
    newsApiArticles := some [⟨some ("v2".data), some ("btc b btc".data), some ("S".data),
      some ("p2".data), some ("x2".data)⟩]
    bingFeed := some [⟨some ("v3".data), some ("btc c btc".data), some ("x3".data),
      some ("p3".data)⟩]
    cryptoFeed1 := some [⟨some ("v4".data), some ("btc d btc".data), some ("x4".data),
      some ("p4".data)⟩]
    cryptoFeed2 := none
    cryptoFeed3 := none
    cryptoFeed4 := none }

/-- NewsAPI article for the C8 counterexample: its description carries HTML
markup, which the NewsAPI branch does not strip. -/
def artC8 : NewsApiArticle :=
  ⟨some ("u".data), some ("t".data), some ("Reuters".data), some ("d".data),
   some ("<b>btc</b> btc".data)⟩

/-- Counterexample environment for C8: the only story comes from NewsAPI. -/
def envC8 : NewsEnv :=
  ⟨none, none, none, true, some [artC8], none, none, none, none, none⟩

/-- Witness environment for C8: the only story comes from Google News. -/
def envC8w : NewsEnv :=
  ⟨some [⟨some ("g1".data), some ("btc up".data), some ("btc higher".data), some ("q".data)⟩],
   none, none, false, none, none, none, none, none, none⟩

/-- Bing entry for the C9 counterexample: its title contains the separator
but the Bing branch performs no split. -/
def entryC9 : Entry :=
  ⟨some ("u".data), some ("btc soars - btc news".data), some ("x".data), some ("d".data)⟩

/-- Counterexample environment for C9: the only story comes from Bing. -/
def envC9 : NewsEnv :=
  ⟨none, none, none, false, none, some [entryC9], none, none, none, none⟩

/-- Bing entry used by the C9 witness. -/
def entryC9w : Entry :=
  ⟨some ("w".data), some ("a - b".data), some ("btc btc".data), some ("p".data)⟩

theorem findallCountAux_zero (t p : List Char)
    (h : ∀ j, j ≤ t.length → matchAt t p j = false) :
    ∀ fuel i, findallCountAux t p fuel i = 0 := by
  intro fuel
  induction fuel with
  | zero => intro i; rfl
  | succ n ih =>
    intro i
    simp only [findallCountAux]
    split
    · rfl
    · next hle =>
      rw [h i (by omega)]
      simp only [Bool.false_eq_true, if_false]
      exact ih (i + 1)

theorem findallCountAux_pos (t p : List Char) :
    ∀ fuel i j, i ≤ j → j ≤ t.length → matchAt t p j = true →
      t.length + 1 ≤ fuel + i → 1 ≤ findallCountAux t p fuel i := by
  intro fuel
  induction fuel with
  | zero => intro i j hij hj hm hf; omega
  | succ n ih =>
    intro i j hij hj hm hf
    simp only [findallCountAux]
    split
    · next hlt => omega
    · next hlt =>
      by_cases hmi : matchAt t p i = true
      · rw [hmi]; simp
      · have hne : i ≠ j := fun he => hmi (he ▸ hm)
        rw [Bool.not_eq_true] at hmi
        rw [hmi]
        simp only [Bool.false_eq_true, if_false]
        exact ih (i + 1) j (by omega) hj hm (by omega)

theorem count_pos_of_existsMatch (t p : List Char) (h : existsMatch t p = true) :
    1 ≤ findallCount t p := by
  unfold existsMatch at h
  rw [List.any_eq_true] at h
  obtain ⟨i, hi, hm⟩ := h
  rw [List.mem_range] at hi
  exact findallCountAux_pos t p (t.length + 1) 0 i (Nat.zero_le i) (by omega) hm (by omega)

theorem existsMatch_of_count_pos (t p : List Char) (h : 1 ≤ findallCount t p) :
    existsMatch t p = true := by
  by_contra hc
  rw [Bool.not_eq_true] at hc
  have hall : ∀ j, j ≤ t.length → matchAt t p j = false := by
    intro j hj
    unfold existsMatch at hc
    rw [List.any_eq_false] at hc
    have := hc j (List.mem_range.mpr (by omega))
    simpa using this
  have := findallCountAux_zero t p hall (t.length + 1) 0
  unfold findallCount at h
  omega

/-- Shared helper: a combined mention count of at least two makes
`is_crypto_relevant` accept. -/
theorem relevant_of_two_mentions (text symbol : List Char)
    (h : 2 ≤ findallCount (text.map Char.toLower) (symbol.map Char.toLower) +
      findallCount (text.map Char.toLower)
        ((symbol.map fun c => if c = '-' then ' ' else c).map Char.toLower)) :
    is_crypto_relevant text symbol = true := by
  have hor : 1 ≤ findallCount (text.map Char.toLower) (symbol.map Char.toLower) ∨
      1 ≤ findallCount (text.map Char.toLower)
        ((symbol.map fun c => if c = '-' then ' ' else c).map Char.toLower) := by omega
  cases hor with
  | inl h1 =>
    have he := existsMatch_of_count_pos _ _ h1
    simp only [is_crypto_relevant, he, Bool.true_or, Bool.not_true]
    rw [if_neg (by simp), if_pos h]
  | inr h1 =>
    have he := existsMatch_of_count_pos _ _ h1
    simp only [is_crypto_relevant, he, Bool.or_true, Bool.not_true]
    rw [if_neg (by simp), if_pos h]

/-- If no dash occurs in the symbol, the clean form equals the raw form. -/
theorem map_dash_eq_self (symbol : List Char) (hdash : '-' ∉ symbol) :
    (symbol.map fun c => if c = '-' then ' ' else c) = symbol := by
  induction symbol with
  | nil => rfl
  | cons c cs ih =>
    have hc : c ≠ '-' := fun h => hdash (h ▸ List.mem_cons_self c cs)
    simp only [List.map_cons, List.cons.injEq]
    exact ⟨by rw [if_neg hc], ih fun h => hdash (List.mem_cons_of_mem _ h)⟩

/-- Claim C1: if the topic identifier does not occur as a whole word
(case-insensitive, in either its raw form or its space-normalized clean
form) anywhere in the text, then `is_crypto_relevant` returns false. -/
theorem c1_no_mention_rejected (text symbol : List Char)
    (h1 : existsMatch (text.map Char.toLower) (symbol.map Char.toLower) = false)
    (h2 : existsMatch (text.map Char.toLower)
      ((symbol.map fun c => if c = '-' then ' ' else c).map Char.toLower) = false) :
    is_crypto_relevant text symbol = false := by
  simp only [is_crypto_relevant, h1, h2, Bool.or_false, Bool.not_false]
  exact if_pos trivial

theorem c1_witness :
    existsMatch (("hello world".data).map Char.toLower) (("btc".data).map Char.toLower) = false ∧
    existsMatch (("hello world".data).map Char.toLower)
      ((("btc".data).map fun c => if c = '-' then ' ' else c).map Char.toLower) = false ∧
    is_crypto_relevant ("hello world".data) ("btc".data) = false :=
  ⟨by decide, by decide, c1_no_mention_rejected _ _ (by decide) (by decide)⟩

/-- Claim C2: a text whose combined whole-word mention count of the raw and
clean forms of the topic identifier is at least 2 is accepted by
`is_crypto_relevant`, regardless of the context keywords it contains. -/
theorem c2_two_mentions_accepted (text symbol : List Char)
    (h : 2 ≤ findallCount (text.map Char.toLower) (symbol.map Char.toLower) +
      findallCount (text.map Char.toLower)
        ((symbol.map fun c => if c = '-' then ' ' else c).map Char.toLower)) :
    is_crypto_relevant text symbol = true :=
  relevant_of_two_mentions text symbol h

theorem c2_witness :
    2 ≤ findallCount (("oasis network named top country by oasis network fans".data).map Char.toLower)
        (("oasis-network".data).map Char.toLower) +
      findallCount (("oasis network named top country by oasis network fans".data).map Char.toLower)
        ((("oasis-network".data).map fun c => if c = '-' then ' ' else c).map Char.toLower) ∧
    is_crypto_relevant ("oasis network named top country by oasis network fans".data)
      ("oasis-network".data) = true :=
  ⟨by decide, c2_two_mentions_accepted _ _ (by decide)⟩

/-- Claim C3: a text with exactly one whole-word mention of the topic
identifier (raw and clean forms combined) and no positive-context keyword
is rejected by `is_crypto_relevant`, whether or not a negative-context
keyword is present. -/
theorem c3_single_mention_no_context_rejected (text symbol : List Char)
    (hcount : findallCount (text.map Char.toLower) (symbol.map Char.toLower) +
      findallCount (text.map Char.toLower)
        ((symbol.map fun c => if c = '-' then ' ' else c).map Char.toLower) = 1)
    (hctx : (crypto_keywords.any fun k => containsSub (text.map Char.toLower) k) = false) :
    is_crypto_relevant text symbol = false := by
  have hor : 1 ≤ findallCount (text.map Char.toLower) (symbol.map Char.toLower) ∨
      1 ≤ findallCount (text.map Char.toLower)
        ((symbol.map fun c => if c = '-' then ' ' else c).map Char.toLower) := by omega
  cases hor with
  | inl h1 =>
    have he := existsMatch_of_count_pos _ _ h1
    simp only [is_crypto_relevant, he, Bool.true_or, Bool.not_true]
    rw [if_neg (by simp), if_neg (by omega), if_pos hcount]
    simp [hctx]
  | inr h1 =>
    have he := existsMatch_of_count_pos _ _ h1
    simp only [is_crypto_relevant, he, Bool.or_true, Bool.not_true]
    rw [if_neg (by simp), if_neg (by omega), if_pos hcount]
    simp [hctx]

theorem c3_witness :
    findallCount (("pi-network is here".data).map Char.toLower)
        (("pi-network".data).map Char.toLower) +
      findallCount (("pi-network is here".data).map Char.toLower)
        ((("pi-network".data).map fun c => if c = '-' then ' ' else c).map Char.toLower) = 1 ∧
    (crypto_keywords.any fun k =>
      containsSub (("pi-network is here".data).map Char.toLower) k) = false ∧
    is_crypto_relevant ("pi-network is here".data) ("pi-network".data) = false :=
  ⟨by decide, by decide, c3_single_mention_no_context_rejected _ _ (by decide) (by decide)⟩

/-- Claim C4: for a symbol with no dash (so that the clean form coincides
with the raw form), any text with at least one whole-word occurrence of
the symbol is accepted, since the occurrence is counted once under the raw
pattern and once under the clean pattern. -/
theorem c4_dashless_double_count_accepted (text symbol : List Char)
    (hdash : '-' ∉ symbol)
    (hocc : existsMatch (text.map Char.toLower) (symbol.map Char.toLower) = true) :
    is_crypto_relevant text symbol = true := by
  have hm := map_dash_eq_self symbol hdash
  have hc := count_pos_of_existsMatch _ _ hocc
  apply relevant_of_two_mentions
  rw [hm]
  omega

theorem c4_witness :
    '-' ∉ ("oasis".data) ∧
    existsMatch (("oasis named top vacation country".data).map Char.toLower)
      (("oasis".data).map Char.toLower) = true ∧
    is_crypto_relevant ("oasis named top vacation country".data) ("oasis".data) = true :=
  ⟨by decide, by decide, c4_dashless_double_count_accepted _ _ (by decide) (by decide)⟩

/-- The NewsAPI description handling (`if desc and len(desc) > 200` plus the
final `desc if desc else ""`) coincides with the shared truncation step. -/
theorem newsapi_desc_norm (d : List Char) :
    (if (if d ≠ [] ∧ 200 < d.length then List.take 200 d ++ ['.', '.', '.'] else d) = []
     then []
     else if d ≠ [] ∧ 200 < d.length then List.take 200 d ++ ['.', '.', '.'] else d)
    = truncDesc d := by
  by_cases hlen : 200 < d.length
  · have hne : d ≠ [] := by intro h0; rw [h0] at hlen; simp at hlen
    have h1 : (if d ≠ [] ∧ 200 < d.length then List.take 200 d ++ ['.', '.', '.'] else d)
        = List.take 200 d ++ ['.', '.', '.'] := if_pos ⟨hne, hlen⟩
    have h2 : (List.take 200 d ++ ['.', '.', '.'] : List Char) ≠ [] := by simp
    rw [h1, if_neg h2, truncDesc, if_pos hlen]
  · have h1 : (if d ≠ [] ∧ 200 < d.length then List.take 200 d ++ ['.', '.', '.'] else d) = d :=
      if_neg fun hand => hlen hand.2
    rw [h1, truncDesc, if_neg hlen]
    by_cases h0 : d = []
    · rw [if_pos h0, h0]
    · rw [if_neg h0]

/-- Characterization of an accepted Google News entry. -/
theorem googleEntryStep_some (symbol : List Char) (seen : List (List Char)) (e : Entry)
    (s : Story) (h : googleEntryStep symbol seen e = some s) :
    ∃ url, e.link = some url ∧ ¬(url = [] ∨ url ∈ seen) ∧
      s = ⟨(googleSplit (e.title.getD ("No title".data))).1,
           (googleSplit (e.title.getD ("No title".data))).2, url, e.published.getD [],
           truncDesc (stripTags
             (e.summary.getD (googleSplit (e.title.getD ("No title".data))).1))⟩ := by
  rcases hl : e.link with _ | url
  · rw [googleEntryStep, hl] at h
    exact Option.noConfusion h
  · simp only [googleEntryStep, hl] at h
    split at h
    · exact absurd h (by simp)
    · next hng =>
      split at h
      · next hrel =>
        injection h with h2
        exact ⟨url, rfl, hng, h2.symm⟩
      · exact absurd h (by simp)

/-- Characterization of an accepted Bing News entry. -/
theorem bingStep_some (symbol : List Char) (seen : List (List Char)) (e : Entry)
    (s : Story) (h : bingStep symbol seen e = some s) :
    ∃ url, e.link = some url ∧ ¬(url = [] ∨ url ∈ seen) ∧
      s = ⟨e.title.getD ("No title".data), "Bing News".data, url, e.published.getD [],
           truncDesc (stripTags (e.summary.getD []))⟩ := by
  rcases hl : e.link with _ | url
  · rw [bingStep, hl] at h
    exact Option.noConfusion h
  · simp only [bingStep, hl] at h
    split at h
    · exact absurd h (by simp)
    · next hng =>
      split at h
      · next hrel =>
        injection h with h2
        exact ⟨url, rfl, hng, h2.symm⟩
      · exact absurd h (by simp)

/-- Characterization of an accepted fixed-crypto-feed entry. -/
theorem cryptoStep_some (symbol : List Char) (seen : List (List Char)) (e : Entry)
    (s : Story) (h : cryptoStep symbol seen e = some s) :
    ∃ url, e.link = some url ∧ ¬(url = [] ∨ url ∈ seen) ∧
      s = ⟨if e.title.getD [] = [] then ("No title".data) else e.title.getD [],
           "Crypto Feed".data, url, e.published.getD [],
           truncDesc (stripTags (e.summary.getD []))⟩ := by
  rcases hl : e.link with _ | url
  · rw [cryptoStep, hl] at h
    exact Option.noConfusion h
  · simp only [cryptoStep, hl] at h
    split at h
    · exact absurd h (by simp)
    · next hng =>
      split at h
      · next hrel =>
        injection h with h2
        exact ⟨url, rfl, hng, h2.symm⟩
      · exact absurd h (by simp)

/-- Characterization of an accepted NewsAPI article; its description is the
truncation of the raw (unstripped) article description. -/
theorem newsapiStep_some (symbol : List Char) (seen : List (List Char)) (a : NewsApiArticle)
    (s : Story) (h : newsapiStep symbol seen a = some s) :
    ∃ url, a.url = some url ∧ ¬(url = [] ∨ url ∈ seen) ∧
      s = ⟨a.title.getD ("No title".data), a.sourceName.getD ("NewsAPI".data), url,
           a.publishedAt.getD [], truncDesc (a.description.getD [])⟩ := by
  rcases hl : a.url with _ | url
  · rw [newsapiStep, hl] at h
    exact Option.noConfusion h
  · simp only [newsapiStep, hl] at h
    split at h
    · exact absurd h (by simp)
    · next hng =>
      split at h
      · next hrel =>
        injection h with h2
        refine ⟨url, rfl, hng, ?_⟩
        rw [← h2, newsapi_desc_norm]
      · exact absurd h (by simp)

/-- Entry steps never accept a story whose url was already seen, and the
fold preserves the dedup invariant. -/
theorem foldEntries_inv {α : Type} (num : Int) (step : List (List Char) → α → Option Story)
    (hstep : ∀ seen e s, step seen e = some s → s.url ∉ seen) :
    ∀ (st : AccState) (l : List α), AccInv st → AccInv (foldEntries num step st l) := by
  intro st l
  induction l generalizing st with
  | nil => intro h; exact h
  | cons e rest ih =>
    intro h
    simp only [foldEntries]
    split
    · exact h
    · cases hs : step st.seenUrls e with
      | none => exact ih st h
      | some s =>
        apply ih
        refine ⟨?_, ?_⟩
        · dsimp only
          rw [List.map_append]
          apply List.Nodup.append h.1 (List.nodup_singleton _)
          intro a ha hb
          rw [List.mem_map] at ha
          obtain ⟨s2, hs2, ha2⟩ := ha
          rw [List.mem_singleton] at hb
          have hmem : s2.url ∈ st.seenUrls := h.2 s2 hs2
          rw [ha2, hb] at hmem
          exact hstep _ _ _ hs hmem
        · dsimp only
          intro s2 hs2
          rw [List.mem_append] at hs2
          cases hs2 with
          | inl hin => exact List.mem_cons_of_mem _ (h.2 s2 hin)
          | inr hin =>
            rw [List.mem_singleton] at hin
            rw [hin]
            exact List.mem_cons_self _ _

/-- The fold preserves any per-story property established by the step. -/
theorem foldEntries_pres {α : Type} (num : Int) (step : List (List Char) → α → Option Story)
    (P : Story → Prop) (hstep : ∀ seen e s, step seen e = some s → P s) :
    ∀ (st : AccState) (l : List α), (∀ s ∈ st.stories, P s) →
      ∀ s ∈ (foldEntries num step st l).stories, P s := by
  intro st l
  induction l generalizing st with
  | nil => intro h; exact h
  | cons e rest ih =>
    intro h
    simp only [foldEntries]
    split
    · exact h
    · cases hs : step st.seenUrls e with
      | none => exact ih st h
      | some s =>
        apply ih
        intro s2 hs2
        dsimp only at hs2
        rw [List.mem_append] at hs2
        cases hs2 with
        | inl hin => exact h s2 hin
        | inr hin =>
          rw [List.mem_singleton] at hin
          rw [hin]
          exact hstep _ _ _ hs

/-- Any state property preserved by the Google fold is preserved by the
whole Google phase. -/
theorem googleLoop_pres (num : Int) (symbol : List Char) (Q : AccState → Prop)
    (hQ : ∀ st l, Q st → Q (foldEntries num (googleEntryStep symbol) st l)) :
    ∀ (feeds : List (Option (List Entry))) (st : AccState) (qi : Nat),
      Q st → Q (googleLoop num symbol st feeds qi).1 := by
  intro feeds
  induction feeds with
  | nil => intro st qi h; exact h
  | cons resp rest ih =>
    intro st qi h
    simp only [googleLoop]
    split
    · exact h
    · cases resp with
      | none => exact ih st (qi + 1) h
      | some entries =>
        dsimp only
        by_cases hfe : (foldEntries num (googleEntryStep symbol) st
            (pyTake entries (num * 4))).stories = []
        · rw [if_pos hfe]
          exact ih (foldEntries num (googleEntryStep symbol) st (pyTake entries (num * 4)))
            (qi + 1) (hQ st (pyTake entries (num * 4)) h)
        · rw [if_neg hfe]
          exact hQ st (pyTake entries (num * 4)) h

/-- Any state property preserved by the crypto-feed fold is preserved by
the crypto-feed loop. -/
theorem cryptoLoop_pres (num : Int) (symbol : List Char) (Q : AccState → Prop)
    (hQ : ∀ st l, Q st → Q (foldEntries num (cryptoStep symbol) st l)) :
    ∀ (feeds : List (Option (List Entry))) (st : AccState) (fi : Nat),
      Q st → Q (cryptoLoop num symbol st feeds fi).1 := by
  intro feeds
  induction feeds with
  | nil => intro st fi h; exact h
  | cons resp rest ih =>
    intro st fi h
    simp only [cryptoLoop]
    split
    · exact h
    · cases resp with
      | none => exact ih st (fi + 1) h
      | some entries =>
        exact ih (foldEntries num (cryptoStep symbol) st (pyTake entries (num * 5)))
          (fi + 1) (hQ st (pyTake entries (num * 5)) h)

/-- State-property preservation for the NewsAPI phase. -/
theorem newsapiPhase_pres (num : Int) (symbol : List Char) (hasKey : Bool)
    (resp : Option (List NewsApiArticle)) (Q : AccState → Prop)
    (hQ : ∀ st l, Q st → Q (foldEntries num (newsapiStep symbol) st l)) :
    ∀ st : AccState, Q st → Q (newsapiPhase num symbol hasKey resp st).1 := by
  intro st h
  unfold newsapiPhase
  split
  · cases resp with
    | none => exact h
    | some arts => exact hQ st arts h
  · exact h

/-- State-property preservation for the Bing phase. -/
theorem bingPhase_pres (num : Int) (symbol : List Char) (resp : Option (List Entry))
    (Q : AccState → Prop)
    (hQ : ∀ st l, Q st → Q (foldEntries num (bingStep symbol) st l)) :
    ∀ st : AccState, Q st → Q (bingPhase num symbol resp st).1 := by
  intro st h
  unfold bingPhase
  split
  · cases resp with
    | none => exact h
    | some entries => exact hQ st _ h
  · exact h

/-- State-property preservation for the crypto-feed phase. -/
theorem cryptoPhase_pres (num : Int) (symbol : List Char)
    (feeds : List (Option (List Entry))) (Q : AccState → Prop)
    (hQ : ∀ st l, Q st → Q (foldEntries num (cryptoStep symbol) st l)) :
    ∀ st : AccState, Q st → Q (cryptoPhase num symbol feeds st).1 := by
  intro st h
  unfold cryptoPhase
  split
  · exact cryptoLoop_pres num symbol Q hQ feeds st 0 h
  · exact h

/-- State-property preservation along the whole pipeline. -/
theorem newsPipeline_pres (symbol : List Char) (num : Int) (env : NewsEnv)
    (Q : AccState → Prop)
    (hG : ∀ st l, Q st → Q (foldEntries num (googleEntryStep symbol) st l))
    (hN : ∀ st l, Q st → Q (foldEntries num (newsapiStep symbol) st l))
    (hB : ∀ st l, Q st → Q (foldEntries num (bingStep symbol) st l))
    (hC : ∀ st l, Q st → Q (foldEntries num (cryptoStep symbol) st l))
    (h0 : Q initialState) : Q (newsPipeline symbol num env).1 := by
  exact cryptoPhase_pres num symbol _ Q hC _
    (bingPhase_pres num symbol _ Q hB _
      (newsapiPhase_pres num symbol _ _ Q hN _
        (googleLoop_pres num symbol Q hG _ initialState 0 h0)))

/-- The NewsAPI phase does nothing when the requested count is reached. -/
theorem newsapiPhase_skip (num : Int) (symbol : List Char) (hasKey : Bool)
    (resp : Option (List NewsApiArticle)) (st : AccState)
    (h : ¬((st.stories.length : Int) < num)) :
    newsapiPhase num symbol hasKey resp st = (st, []) := by
  unfold newsapiPhase
  exact if_neg fun hx => h hx.1

/-- The Bing phase does nothing when the requested count is reached. -/
theorem bingPhase_skip (num : Int) (symbol : List Char) (resp : Option (List Entry))
    (st : AccState) (h : ¬((st.stories.length : Int) < num)) :
    bingPhase num symbol resp st = (st, []) := by
  unfold bingPhase
  exact if_neg h

/-- The crypto-feed phase does nothing when the requested count is reached. -/
theorem cryptoPhase_skip (num : Int) (symbol : List Char)
    (feeds : List (Option (List Entry))) (st : AccState)
    (h : ¬((st.stories.length : Int) < num)) :
    cryptoPhase num symbol feeds st = (st, []) := by
  unfold cryptoPhase
  exact if_neg h

/-- Every fetch performed by the Google phase is a Google fetch. -/
theorem googleLoop_log (num : Int) (symbol : List Char) :
    ∀ (feeds : List (Option (List Entry))) (st : AccState) (qi : Nat) (t : Src),
      t ∈ (googleLoop num symbol st feeds qi).2 → ∃ i, t = Src.google i := by
  intro feeds
  induction feeds with
  | nil => intro st qi t ht; exact absurd ht (by simp [googleLoop])
  | cons resp rest ih =>
    intro st qi t ht
    simp only [googleLoop] at ht
    split at ht
    · exact absurd ht (by simp)
    · cases resp with
      | none =>
        rcases List.mem_cons.mp ht with h1 | h2
        · exact ⟨qi, h1⟩
        · exact ih st (qi + 1) t h2
      | some entries =>
        dsimp only at ht
        by_cases hfe : (foldEntries num (googleEntryStep symbol) st
            (pyTake entries (num * 4))).stories = []
        · rw [if_pos hfe] at ht
          rcases List.mem_cons.mp ht with h1 | h2
          · exact ⟨qi, h1⟩
          · exact ih _ (qi + 1) t h2
        · rw [if_neg hfe] at ht
          rcases List.mem_singleton.mp ht with h1
          exact ⟨qi, h1⟩

/-- Claim C5: within one `get_crypto_news` call a story is accepted at most
once per url — the urls of the returned news list are pairwise distinct. -/
theorem c5_urls_distinct (symbol : List Char) (num : Int) (env : NewsEnv) :
    ((get_crypto_news symbol num env).1.news.map fun s => s.url).Nodup := by
  have hG : ∀ seen (e : Entry) s, googleEntryStep symbol seen e = some s → s.url ∉ seen := by
    intro seen e s h
    obtain ⟨url, _, hng, hs⟩ := googleEntryStep_some symbol seen e s h
    rw [hs]; exact fun hm => hng (Or.inr hm)
  have hN : ∀ seen (a : NewsApiArticle) s, newsapiStep symbol seen a = some s →
      s.url ∉ seen := by
    intro seen a s h
    obtain ⟨url, _, hng, hs⟩ := newsapiStep_some symbol seen a s h
    rw [hs]; exact fun hm => hng (Or.inr hm)
  have hB : ∀ seen (e : Entry) s, bingStep symbol seen e = some s → s.url ∉ seen := by
    intro seen e s h
    obtain ⟨url, _, hng, hs⟩ := bingStep_some symbol seen e s h
    rw [hs]; exact fun hm => hng (Or.inr hm)
  have hC : ∀ seen (e : Entry) s, cryptoStep symbol seen e = some s → s.url ∉ seen := by
    intro seen e s h
    obtain ⟨url, _, hng, hs⟩ := cryptoStep_some symbol seen e s h
    rw [hs]; exact fun hm => hng (Or.inr hm)
  have hInv : AccInv (newsPipeline symbol num env).1 :=
    newsPipeline_pres symbol num env AccInv
      (fun st l h => foldEntries_inv num _ hG st l h)
      (fun st l h => foldEntries_inv num _ hN st l h)
      (fun st l h => foldEntries_inv num _ hB st l h)
      (fun st l h => foldEntries_inv num _ hC st l h)
      ⟨List.nodup_nil, fun s hs => absurd hs (List.not_mem_nil s)⟩
  simp only [get_crypto_news]
  split
  · simp
  · exact hInv.1

/-- The no-coverage message is never the empty string. -/
theorem noNewsMessage_ne_nil (symbol : List Char) : noNewsMessage symbol ≠ [] := by
  intro h0
  have h1 := congrArg List.length h0
  simp only [noNewsMessage, List.length_append] at h1
  have hpre : ("No recent crypto news found for ".data).length = 32 := rfl
  have hsuf : ((". It might have limited media coverage or be a very new project.".data)).length
      = 64 := rfl
  rw [hpre, hsuf] at h1
  simp at h1

/-- When the Google phase already reached the requested count, the three
later phases leave the state untouched and fetch nothing. -/
theorem newsPipeline_google_only (symbol : List Char) (num : Int) (env : NewsEnv)
    (h : ¬(((googleLoop num symbol initialState
        [env.googleFeed1, env.googleFeed2, env.googleFeed3] 0).1.stories.length : Int) < num)) :
    newsPipeline symbol num env =
      ((googleLoop num symbol initialState [env.googleFeed1, env.googleFeed2, env.googleFeed3] 0).1,
       (googleLoop num symbol initialState [env.googleFeed1, env.googleFeed2, env.googleFeed3] 0).2) := by
  simp only [newsPipeline]
  rw [newsapiPhase_skip num symbol env.hasNewsApiKey env.newsApiArticles _ h]
  dsimp only
  rw [bingPhase_skip num symbol env.bingFeed _ h]
  dsimp only
  rw [cryptoPhase_skip num symbol
    [env.cryptoFeed1, env.cryptoFeed2, env.cryptoFeed3, env.cryptoFeed4] _ h]
  dsimp only
  simp

/-- Claim C6: with a positive requested count, if the Google News source
alone already yields exactly that many stories, then NewsAPI, Bing News and
the fixed crypto feeds are never fetched and the returned news list has
exactly the requested length. -/
theorem c6_first_source_satisfies (symbol : List Char) (num : Int) (env : NewsEnv)
    (hnum : 0 < num)
    (hg : ((googleLoop num symbol initialState
        [env.googleFeed1, env.googleFeed2, env.googleFeed3] 0).1.stories.length : Int) = num) :
    (∀ t ∈ (get_crypto_news symbol num env).2, ∃ i, t = Src.google i) ∧
    ((get_crypto_news symbol num env).1.news.length : Int) = num := by
  have hlt : ¬(((googleLoop num symbol initialState
      [env.googleFeed1, env.googleFeed2, env.googleFeed3] 0).1.stories.length : Int) < num) := by
    rw [hg]; exact lt_irrefl num
  have hpipe := newsPipeline_google_only symbol num env hlt
  have hne : ¬((googleLoop num symbol initialState
      [env.googleFeed1, env.googleFeed2, env.googleFeed3] 0).1.stories = []) := by
    intro h0
    rw [h0] at hg
    simp at hg
    omega
  constructor
  · intro t ht
    apply googleLoop_log num symbol [env.googleFeed1, env.googleFeed2, env.googleFeed3]
      initialState 0 t
    have hlog : (get_crypto_news symbol num env).2
        = (googleLoop num symbol initialState
            [env.googleFeed1, env.googleFeed2, env.googleFeed3] 0).2 := by
      simp only [get_crypto_news]
      rw [hpipe]
      split <;> rfl
    rw [hlog] at ht
    exact ht
  · have hnews : (get_crypto_news symbol num env).1.news
        = (googleLoop num symbol initialState
            [env.googleFeed1, env.googleFeed2, env.googleFeed3] 0).1.stories := by
      simp only [get_crypto_news]
      rw [hpipe]
      dsimp only
      rw [if_neg hne]
    rw [hnews]
    exact hg

theorem c6_witness :
    (0 : Int) < 1 ∧
    ((googleLoop 1 ("btc".data) initialState
        [envC6.googleFeed1, envC6.googleFeed2, envC6.googleFeed3] 0).1.stories.length : Int) = 1 ∧
    ((∀ t ∈ (get_crypto_news ("btc".data) 1 envC6).2, ∃ i, t = Src.google i) ∧
     ((get_crypto_news ("btc".data) 1 envC6).1.news.length : Int) = 1) :=
  ⟨by decide, by decide, c6_first_source_satisfies ("btc".data) 1 envC6 (by decide) (by decide)⟩

/-- Claim C7: when the pipeline exhausts every source with zero accepted
stories, the call still returns a well-formed payload: upper-cased symbol,
empty news list, count 0 and a non-empty human-readable message. -/
theorem c7_exhausted_empty_payload (symbol : List Char) (num : Int) (env : NewsEnv)
    (h : (newsPipeline symbol num env).1.stories = []) :
    (get_crypto_news symbol num env).1 =
      ⟨symbol.map Char.toUpper, [], 0, some (noNewsMessage symbol)⟩ ∧
    noNewsMessage symbol ≠ [] := by
  constructor
  · simp only [get_crypto_news]
    rw [if_pos h]
  · exact noNewsMessage_ne_nil symbol

theorem c7_witness :
    (newsPipeline ("btc".data) 1 envEmpty).1.stories = [] ∧
    ((get_crypto_news ("btc".data) 1 envEmpty).1 =
      ⟨("btc".data).map Char.toUpper, [], 0, some (noNewsMessage ("btc".data))⟩ ∧
     noNewsMessage ("btc".data) ≠ []) :=
  ⟨by decide, c7_exhausted_empty_payload ("btc".data) 1 envEmpty (by decide)⟩

/-- Claim C10: for a non-positive requested count no source is fetched at
all, and the call returns the well-formed empty payload. -/
theorem c10_nonpositive_count (symbol : List Char) (env : NewsEnv) (num : Int)
    (h : num ≤ 0) :
    (get_crypto_news symbol num env).2 = [] ∧
    (get_crypto_news symbol num env).1 =
      ⟨symbol.map Char.toUpper, [], 0, some (noNewsMessage symbol)⟩ ∧
    noNewsMessage symbol ≠ [] := by
  have h0 : (initialState.stories.length : Int) = 0 := rfl
  have hG : googleLoop num symbol initialState
      [env.googleFeed1, env.googleFeed2, env.googleFeed3] 0 = (initialState, []) := by
    simp only [googleLoop]
    exact if_pos (by rw [h0]; exact h)
  have hlt : ¬(((googleLoop num symbol initialState
      [env.googleFeed1, env.googleFeed2, env.googleFeed3] 0).1.stories.length : Int) < num) := by
    rw [hG]
    intro hx
    simp [initialState] at hx
    omega
  have hpipe := newsPipeline_google_only symbol num env hlt
  rw [hG] at hpipe
  have hpipe2 : newsPipeline symbol num env = (initialState, []) := by rw [hpipe]
  refine ⟨?_, ?_, noNewsMessage_ne_nil symbol⟩
  · simp only [get_crypto_news]
    rw [hpipe2]
    split <;> rfl
  · simp only [get_crypto_news]
    rw [hpipe2]
    dsimp only
    rw [if_pos (show initialState.stories = [] from rfl)]

theorem c10_witness :
    (-1 : Int) ≤ 0 ∧
    ((get_crypto_news ("btc".data) (-1) envC10).2 = [] ∧
     (get_crypto_news ("btc".data) (-1) envC10).1 =
       ⟨("btc".data).map Char.toUpper, [], 0, some (noNewsMessage ("btc".data))⟩ ∧
     noNewsMessage ("btc".data) ≠ []) :=
  ⟨by decide, c10_nonpositive_count ("btc".data) envC10 (-1) (by decide)⟩

/-- Specification of the rightmost-occurrence scan: it returns a position
where the pattern starts, and no later position within the bound does. -/
theorem lastOccAux_spec (t p : List Char) :
    ∀ n i, lastOccAux t p n = some i →
      p.isPrefixOf (t.drop i) = true ∧ i ≤ n ∧
      ∀ j, i < j → j ≤ n → p.isPrefixOf (t.drop j) = false := by
  intro n
  induction n with
  | zero =>
    intro i h
    simp only [lastOccAux] at h
    split at h
    · next hp =>
      injection h with h2
      subst h2
      exact ⟨hp, Nat.le_refl 0, fun j hj hjn => by omega⟩
    · exact absurd h (by simp)
  | succ n ih =>
    intro i h
    simp only [lastOccAux] at h
    split at h
    · next hp =>
      injection h with h2
      subst h2
      exact ⟨hp, Nat.le_refl _, fun j hj hjn => by omega⟩
    · next hp =>
      obtain ⟨h1, h2, h3⟩ := ih i h
      refine ⟨h1, by omega, ?_⟩
      intro j hj hjn
      by_cases hje : j = n + 1
      · rw [hje]
        exact Bool.eq_false_iff.mpr hp
      · exact h3 j hj (by omega)

/-- Counterexample to claim C9: an accepted Bing News story whose title
contains the separator `" - "` keeps its full, unsplit title and the fixed
source label `"Bing News"` — the claimed split does not happen outside the
Google News branch. -/
theorem c9_counterexample :
    containsSub (entryC9.title.getD []) (" - ".data) = true ∧
    (get_crypto_news ("btc".data) 1 envC9).1.news =
      [⟨"btc soars - btc news".data, "Bing News".data, "u".data, "d".data, "x".data⟩] ∧
    (get_crypto_news ("btc".data) 1 envC9).1.news ≠
      [⟨"btc soars".data, "btc news".data, "u".data, "d".data, "x".data⟩] := by
  decide

/-- Claim C9 (amended): only the Google News branch splits a title, at the
last occurrence of `" - "` (default source `"Google News"` when the
separator is absent); Bing News, NewsAPI and crypto-feed stories keep the
title untouched and always get the provider default source label.  The last
conjunct certifies that the split position really is the last occurrence. -/
theorem c9_title_split_amended :
    (∀ (symbol : List Char) (seen : List (List Char)) (e : Entry) (s : Story),
      googleEntryStep symbol seen e = some s →
        (lastOccurrence (e.title.getD ("No title".data)) (" - ".data) = none →
          s.title = e.title.getD ("No title".data) ∧ s.source = "Google News".data) ∧
        (∀ i, lastOccurrence (e.title.getD ("No title".data)) (" - ".data) = some i →
          s.title = (e.title.getD ("No title".data)).take i ∧
          s.source = (e.title.getD ("No title".data)).drop (i + 3))) ∧
    (∀ (symbol : List Char) (seen : List (List Char)) (e : Entry) (s : Story),
      bingStep symbol seen e = some s →
        s.title = e.title.getD ("No title".data) ∧ s.source = "Bing News".data) ∧
    (∀ (symbol : List Char) (seen : List (List Char)) (a : NewsApiArticle) (s : Story),
      newsapiStep symbol seen a = some s →
        s.title = a.title.getD ("No title".data) ∧
        s.source = a.sourceName.getD ("NewsAPI".data)) ∧
    (∀ (symbol : List Char) (seen : List (List Char)) (e : Entry) (s : Story),
      cryptoStep symbol seen e = some s →
        s.title = (if e.title.getD [] = [] then ("No title".data) else e.title.getD []) ∧
        s.source = "Crypto Feed".data) ∧
    (∀ (t p : List Char) (i : Nat), lastOccurrence t p = some i →
      p.isPrefixOf (t.drop i) = true ∧
      ∀ j, i < j → j ≤ t.length → p.isPrefixOf (t.drop j) = false) := by
  refine ⟨?_, ?_, ?_, ?_, ?_⟩
  · intro symbol seen e s h
    obtain ⟨url, _, _, hs⟩ := googleEntryStep_some symbol seen e s h
    constructor
    · intro hnone
      rw [hs]
      dsimp only
      rw [googleSplit, hnone]
      exact ⟨rfl, rfl⟩
    · intro i hi
      rw [hs]
      dsimp only
      rw [googleSplit, hi]
      exact ⟨rfl, rfl⟩
  · intro symbol seen e s h
    obtain ⟨url, _, _, hs⟩ := bingStep_some symbol seen e s h
    rw [hs]
    exact ⟨rfl, rfl⟩
  · intro symbol seen a s h
    obtain ⟨url, _, _, hs⟩ := newsapiStep_some symbol seen a s h
    rw [hs]
    exact ⟨rfl, rfl⟩
  · intro symbol seen e s h
    obtain ⟨url, _, _, hs⟩ := cryptoStep_some symbol seen e s h
    rw [hs]
    exact ⟨rfl, rfl⟩
  · intro t p i h
    obtain ⟨h1, _, h3⟩ := lastOccAux_spec t p t.length i h
    exact ⟨h1, h3⟩

theorem c9_witness :
    bingStep ("btc".data) [] entryC9w =
      some ⟨"a - b".data, "Bing News".data, "w".data, "p".data, "btc btc".data⟩ ∧
    ((⟨"a - b".data, "Bing News".data, "w".data, "p".data, "btc btc".data⟩ : Story).title
        = entryC9w.title.getD ("No title".data) ∧
     (⟨"a - b".data, "Bing News".data, "w".data, "p".data, "btc btc".data⟩ : Story).source
        = "Bing News".data) :=
  ⟨by decide, c9_title_split_amended.2.1 ("btc".data) [] entryC9w _ (by decide)⟩

/-- Counterexample to claim C8: an accepted NewsAPI story keeps HTML markup
in its description — the description is not the truncation of the
tag-stripped description, because the NewsAPI branch never strips tags. -/
theorem c8_counterexample :
    (get_crypto_news ("btc".data) 1 envC8).1.news.map (fun s => s.description)
      = [("<b>btc</b> btc".data)] ∧
    stripTags ("<b>btc</b> btc".data) = ("btc btc".data) ∧
    ("<b>btc</b> btc".data) ≠ stripTags ("<b>btc</b> btc".data) := by
  decide

/-- Claim C8 (amended): every accepted story's description is the result of
the truncation step on its pre-truncation description; the truncation maps a
string longer than 200 characters to exactly its first 200 characters plus
the three-character marker (total length 203) and leaves shorter strings
unchanged.  The pre-truncation description is the tag-stripped summary for
Google News, Bing News and crypto-feed stories, but the raw, unstripped
description for NewsAPI stories. -/
theorem c8_truncation_amended :
    (∀ (symbol : List Char) (num : Int) (env : NewsEnv) (s : Story),
      s ∈ (get_crypto_news symbol num env).1.news → ∃ d, s.description = truncDesc d) ∧
    (∀ d : List Char,
      (200 < d.length →
        truncDesc d = d.take 200 ++ ("...".data) ∧ (truncDesc d).length = 203) ∧
      (d.length ≤ 200 → truncDesc d = d)) ∧
    (∀ (symbol : List Char) (seen : List (List Char)) (e : Entry) (s : Story),
      googleEntryStep symbol seen e = some s →
        s.description = truncDesc (stripTags
          (e.summary.getD (googleSplit (e.title.getD ("No title".data))).1))) ∧
    (∀ (symbol : List Char) (seen : List (List Char)) (e : Entry) (s : Story),
      bingStep symbol seen e = some s →
        s.description = truncDesc (stripTags (e.summary.getD []))) ∧
    (∀ (symbol : List Char) (seen : List (List Char)) (e : Entry) (s : Story),
      cryptoStep symbol seen e = some s →
        s.description = truncDesc (stripTags (e.summary.getD []))) ∧
    (∀ (symbol : List Char) (seen : List (List Char)) (a : NewsApiArticle) (s : Story),
      newsapiStep symbol seen a = some s →
        s.description = truncDesc (a.description.getD [])) := by
  refine ⟨?_, ?_, ?_, ?_, ?_, ?_⟩
  · intro symbol num env s hs
    have hG : ∀ seen (e : Entry) s2, googleEntryStep symbol seen e = some s2 →
        ∃ d, s2.description = truncDesc d := by
      intro seen e s2 h
      obtain ⟨url, _, _, hrec⟩ := googleEntryStep_some symbol seen e s2 h
      exact ⟨_, by rw [hrec]⟩
    have hN : ∀ seen (a : NewsApiArticle) s2, newsapiStep symbol seen a = some s2 →
        ∃ d, s2.description = truncDesc d := by
      intro seen a s2 h
      obtain ⟨url, _, _, hrec⟩ := newsapiStep_some symbol seen a s2 h
      exact ⟨_, by rw [hrec]⟩
    have hB : ∀ seen (e : Entry) s2, bingStep symbol seen e = some s2 →
        ∃ d, s2.description = truncDesc d := by
      intro seen e s2 h
      obtain ⟨url, _, _, hrec⟩ := bingStep_some symbol seen e s2 h
      exact ⟨_, by rw [hrec]⟩
    have hC : ∀ seen (e : Entry) s2, cryptoStep symbol seen e = some s2 →
        ∃ d, s2.description = truncDesc d := by
      intro seen e s2 h
      obtain ⟨url, _, _, hrec⟩ := cryptoStep_some symbol seen e s2 h
      exact ⟨_, by rw [hrec]⟩
    have hPipe := newsPipeline_pres symbol num env
      (fun st => ∀ s2 ∈ st.stories, ∃ d, s2.description = truncDesc d)
      (fun st l h => foldEntries_pres num _ _ hG st l h)
      (fun st l h => foldEntries_pres num _ _ hN st l h)
      (fun st l h => foldEntries_pres num _ _ hB st l h)
      (fun st l h => foldEntries_pres num _ _ hC st l h)
      (fun s2 hs2 => absurd hs2 (List.not_mem_nil s2))
    simp only [get_crypto_news] at hs
    split at hs
    · exact absurd hs (by simp)
    · exact hPipe s hs
  · intro d
    constructor
    · intro h
      constructor
      · rw [truncDesc, if_pos h]
      · rw [truncDesc, if_pos h, List.length_append, List.length_take]
        have h3 : ("...".data).length = 3 := rfl
        rw [h3]
        omega
    · intro h
      rw [truncDesc, if_neg (by omega)]
  · intro symbol seen e s h
    obtain ⟨url, _, _, hrec⟩ := googleEntryStep_some symbol seen e s h
    rw [hrec]
  · intro symbol seen e s h
    obtain ⟨url, _, _, hrec⟩ := bingStep_some symbol seen e s h
    rw [hrec]
  · intro symbol seen e s h
    obtain ⟨url, _, _, hrec⟩ := cryptoStep_some symbol seen e s h
    rw [hrec]
  · intro symbol seen a s h
    obtain ⟨url, _, _, hrec⟩ := newsapiStep_some symbol seen a s h
    rw [hrec]

theorem c8_witness :
    (⟨"btc up".data, "Google News".data, "g1".data, "q".data, "btc higher".data⟩ : Story)
      ∈ (get_crypto_news ("btc".data) 1 envC8w).1.news ∧
    ∃ d, (⟨"btc up".data, "Google News".data, "g1".data, "q".data,
      "btc higher".data⟩ : Story).description = truncDesc d :=
  ⟨by decide, c8_truncation_amended.1 ("btc".data) 1 envC8w _ (by decide)⟩
